import Mathlib

/-!
Verification development for the `platform_cli` supervisor.

The Python sources are shallowly embedded below, module by module:

* `src/platform_cli/template.py`  — dot transcoding, the pystache-style
  renderer wrapper, and `render_values_in_template_map`;
* `src/platform_cli/protected_file_path.py` — the directory-based lock
  (`__enter__` backoff loop and `__exit__` release);
* `src/platform_cli/service.py`   — `wait_dots`, the shutdown staging of
  `ServiceProfile.stop`, the already-running branch of
  `ServiceProfile.start`, and the `enabled` flag assignment;
* `src/platform_cli/cli.py`      — the priority ordering used by the CLI
  supervisor for bulk start/stop;
* `platform_cli/config.py` is not part of the snapshot, so the resolver
  `Config.get_active_values_and_metadata` is modelled from the spec and
  checked against the expectations of `src/test/test_config.py`.

Python strings are embedded as `List Char`; dictionaries as association
lists in insertion order (Python compares `previous_run` and `this_run`
by item sets; with a fixed key order that coincides with list equality).
-/

/-- Python strings are modelled as lists of characters. -/
abbrev Str : Type := List Char

/-- Convert a Lean string literal to the `Str` embedding of Python strings. -/
def chars (s : String) : Str := s.data

/-- Value maps (Python dicts) in insertion order. -/
abbrev ValMap : Type := List (Str × Str)

/-- `template._dots_to_triple_under`: replace every `.` by three underscores
(`re.sub` with a single-character pattern replaces each occurrence). -/
def dots_to_triple_under : Str → Str
  | [] => []
  | c :: rest =>
    if c = '.' then '_' :: '_' :: '_' :: dots_to_triple_under rest
    else c :: dots_to_triple_under rest

/-- `template._triple_under_to_dots`: `re.sub` scans left to right and
replaces each leftmost non-overlapping run of three underscores by a dot;
shorter tails are emitted unchanged. -/
def triple_under_to_dots : Str → Str
  | [] => []
  | [c] => [c]
  | [c, d] => [c, d]
  | c :: d :: e :: rest =>
    if c = '_' ∧ d = '_' ∧ e = '_' then '.' :: triple_under_to_dots rest
    else c :: triple_under_to_dots (d :: e :: rest)

/-- Whether a string contains three consecutive underscores. -/
def hasTripleUnder : Str → Bool
  | [] => false
  | [_] => false
  | [_, _] => false
  | c :: d :: e :: rest =>
    decide (c = '_' ∧ d = '_' ∧ e = '_') || hasTripleUnder (d :: e :: rest)

/-- Whether a string contains an underscore immediately followed by a dot. -/
def hasUnderDot : Str → Bool
  | [] => false
  | [_] => false
  | c :: d :: rest => decide (c = '_' ∧ d = '.') || hasUnderDot (d :: rest)

/-- Whether a string contains a dot. -/
def hasDotChar (s : Str) : Bool := s.any (fun c => decide (c = '.'))

/-- Errors surfaced by the template module: `pystache` key-not-found
(wrapped into `template.Error` by `Renderer.render`), a malformed tag, and
the convergence failure raised by `render_values_in_template_map`. -/
inductive RErr : Type
  | keyNotFound : RErr
  | badTag : RErr
  | noConvergence : RErr
deriving DecidableEq

/-- First-match lookup in an association list (Python dict lookup, given
that insertion kept keys unique). -/
def alistLookup (l : ValMap) (k : Str) : Option Str :=
  match l with
  | [] => none
  | (k', v) :: rest => if k' = k then some v else alistLookup rest k

/-- Scan a mustache tag body up to the closing `}}`; returns the tag key
and the remainder of the template after the close. -/
def takeTagClose : Str → Option (Str × Str)
  | [] => none
  | [_] => none
  | c :: d :: rest =>
    if c = '}' ∧ d = '}' then some ([], rest)
    else (takeTagClose (d :: rest)).map (fun p => (c :: p.1, p.2))

theorem takeTagClose_length : ∀ s key rest, takeTagClose s = some (key, rest) →
    rest.length < s.length := by
  intro s
  induction s with
  | nil => intro key rest h; simp [takeTagClose] at h
  | cons c t ih =>
    intro key rest h
    cases t with
    | nil => simp [takeTagClose] at h
    | cons d t' =>
      rw [takeTagClose] at h
      by_cases hc : c = '}' ∧ d = '}'
      · rw [if_pos hc] at h
        simp only [Option.some.injEq, Prod.mk.injEq] at h
        obtain ⟨-, h2⟩ := h
        subst h2
        simp only [List.length_cons]
        omega
      · rw [if_neg hc] at h
        cases hp : takeTagClose (d :: t') with
        | none => rw [hp] at h; simp at h
        | some p =>
          rw [hp] at h
          simp only [Option.map_some', Option.some.injEq, Prod.mk.injEq] at h
          obtain ⟨-, h2⟩ := h
          subst h2
          have := ih p.1 p.2 (by rw [hp])
          simp only [List.length_cons] at this ⊢
          omega

/-- Variable interpolation as `pystache` performs it on the templates this
program produces: a `\x7b\x7b key \x7d\x7d` tag is replaced by the context
value for `key` (looked up strictly, `missing_tags='strict'`, identity
escape), and the substituted value is not re-parsed as a template. `fuel`
bounds the scan; it is called with more fuel than the template length. -/
def mustacheRender (ctx : ValMap) : Nat → Str → Except RErr Str
  | 0, s => .ok s
  | _ + 1, [] => .ok []
  | fuel + 1, c :: rest =>
    if c = '{' then
      match rest with
      | d :: rest2 =>
        if d = '{' then
          match takeTagClose rest2 with
          | none => .error .badTag
          | some (key, after) =>
            match alistLookup ctx key with
            | none => .error .keyNotFound
            | some v => do
              let tail ← mustacheRender ctx fuel after
              .ok (v ++ tail)
        else do
          let tail ← mustacheRender ctx fuel rest
          .ok (c :: tail)
      | [] => .ok [c]
    else do
      let tail ← mustacheRender ctx fuel rest
      .ok (c :: tail)

/-- `template.Renderer.render` together with the key transcoding performed
by `Renderer.__init__`: dots of the context keys and of the template become
triple underscores, the template is rendered, and the result is transcoded
back. -/
def rendererRender (value_map : ValMap) (element : Str) : Except RErr Str :=
  let ctx := value_map.map (fun kv => (dots_to_triple_under kv.1, kv.2))
  let subbed := dots_to_triple_under element
  (mustacheRender ctx (subbed.length + 1) subbed).map triple_under_to_dots

/-- One pass of `render_values_in_template_map`: render every value of
`items` against the fixed context `ctx` (the renderer is built once per
pass from `previous_run`). -/
def renderPass (ctx : ValMap) : ValMap → Except RErr ValMap
  | [] => .ok []
  | (k, v) :: rest =>
    match rendererRender ctx v with
    | .error e => .error e
    | .ok v' =>
      match renderPass ctx rest with
      | .error e => .error e
      | .ok rest' => .ok ((k, v') :: rest')

/-- A full pass renders the map against itself. -/
def renderRun (prev : ValMap) : Except RErr ValMap := renderPass prev prev

/-- Transcode both keys and values (`_modified_dict_keys_and_values`). -/
def dtuBoth (m : ValMap) : ValMap :=
  m.map (fun kv => (dots_to_triple_under kv.1, dots_to_triple_under kv.2))

/-- Transcode both keys and values back to dots. -/
def utdBoth (m : ValMap) : ValMap :=
  m.map (fun kv => (triple_under_to_dots kv.1, triple_under_to_dots kv.2))

/-- The `for _ in range(max_substitution_runs)` loop: render a pass; stop
successfully when a pass leaves the map unchanged; raise the convergence
error when the run budget is exhausted (`for`/`else`). -/
def rvLoop : ValMap → Nat → Except RErr ValMap
  | _, 0 => .error .noConvergence
  | prev, n + 1 =>
    match renderRun prev with
    | .error e => .error e
    | .ok this => if this = prev then .ok this else rvLoop this n

/-- `template.render_values_in_template_map`. -/
def render_values_in_template_map (value_map : ValMap)
    (max_substitution_runs : Nat := 10) : Except RErr ValMap :=
  (rvLoop (dtuBoth value_map) max_substitution_runs).map utdBoth

/-- Iterating full rendering passes `j` times (used to relate a successful
run of the loop to its starting map). -/
def passIter (m : ValMap) : Nat → Except RErr ValMap
  | 0 => .ok m
  | n + 1 =>
    match renderRun m with
    | .error e => .error e
    | .ok m' => passIter m' n

deriving instance DecidableEq for Except

/-- Build a mustache variable tag around a key. -/
def mtag (key : Str) : Str := '{' :: '{' :: (key ++ ('}' :: '}' :: []))

theorem tud_cons_ne (c : Char) (X : Str) (hc : ¬ c = '_') :
    triple_under_to_dots (c :: X) = c :: triple_under_to_dots X := by
  cases X with
  | nil => rfl
  | cons d Y =>
    cases Y with
    | nil => rfl
    | cons e Z => simp [triple_under_to_dots, hc]

theorem tud_cons2_ne (c d : Char) (X : Str) (hd : ¬ d = '_') :
    triple_under_to_dots (c :: d :: X) = c :: triple_under_to_dots (d :: X) := by
  cases X with
  | nil => rfl
  | cons e Z => simp [triple_under_to_dots, hd]

theorem tud_triple (X : Str) :
    triple_under_to_dots ('_' :: '_' :: '_' :: X) = '.' :: triple_under_to_dots X := by
  simp [triple_under_to_dots]

theorem hasTripleUnder_tail (c : Char) (t : Str) (h : hasTripleUnder (c :: t) = false) :
    hasTripleUnder t = false := by
  cases t with
  | nil => rfl
  | cons d r =>
    cases r with
    | nil => rfl
    | cons e r2 =>
      rw [hasTripleUnder] at h
      exact (Bool.or_eq_false_iff.mp h).2

theorem hasUnderDot_tail (c : Char) (t : Str) (h : hasUnderDot (c :: t) = false) :
    hasUnderDot t = false := by
  cases t with
  | nil => rfl
  | cons d r =>
    rw [hasUnderDot] at h
    exact (Bool.or_eq_false_iff.mp h).2

theorem dtu_id_of_no_dot : ∀ s : Str, hasDotChar s = false → dots_to_triple_under s = s := by
  intro s
  induction s with
  | nil => intro _; rfl
  | cons c r ih =>
    intro h
    simp only [hasDotChar, List.any_cons, Bool.or_eq_false_iff,
      decide_eq_false_iff_not] at h
    rw [dots_to_triple_under, if_neg h.1]
    rw [ih (by simp only [hasDotChar]; exact h.2)]

theorem tud_dtu_aux : ∀ (n : Nat) (s : Str), s.length ≤ n →
    ((hasTripleUnder s = false → hasUnderDot s = false →
       triple_under_to_dots (dots_to_triple_under s) = s) ∧
     (hasTripleUnder ('_' :: s) = false → hasUnderDot ('_' :: s) = false →
       triple_under_to_dots ('_' :: dots_to_triple_under s) = '_' :: s) ∧
     (hasTripleUnder ('_' :: '_' :: s) = false → hasUnderDot ('_' :: '_' :: s) = false →
       triple_under_to_dots ('_' :: '_' :: dots_to_triple_under s) = '_' :: '_' :: s)) := by
  intro n
  induction n with
  | zero =>
    intro s hs
    have hnil : s = [] := List.length_eq_zero.mp (Nat.le_zero.mp hs)
    subst hnil
    exact ⟨fun _ _ => rfl, fun _ _ => rfl, fun _ _ => rfl⟩
  | succ n ih =>
    intro s hs
    cases s with
    | nil => exact ⟨fun _ _ => rfl, fun _ _ => rfl, fun _ _ => rfl⟩
    | cons c r =>
      have hr : r.length ≤ n := by
        simp only [List.length_cons] at hs; omega
      obtain ⟨ih1, ih2, ih3⟩ := ih r hr
      refine ⟨?_, ?_, ?_⟩
      · intro h3 hud
        by_cases hcdot : c = '.'
        · subst hcdot
          rw [dots_to_triple_under, if_pos rfl, tud_triple]
          rw [ih1 (hasTripleUnder_tail _ _ h3) (hasUnderDot_tail _ _ hud)]
        · by_cases hcu : c = '_'
          · subst hcu
            rw [dots_to_triple_under, if_neg (by decide)]
            exact ih2 h3 hud
          · rw [dots_to_triple_under, if_neg hcdot, tud_cons_ne c _ hcu]
            rw [ih1 (hasTripleUnder_tail _ _ h3) (hasUnderDot_tail _ _ hud)]
      · intro h3 hud
        by_cases hcdot : c = '.'
        · subst hcdot
          exfalso
          simp [hasUnderDot] at hud
        · by_cases hcu : c = '_'
          · subst hcu
            rw [dots_to_triple_under, if_neg (by decide)]
            exact ih3 h3 hud
          · rw [dots_to_triple_under, if_neg hcdot]
            rw [tud_cons2_ne '_' c _ hcu, tud_cons_ne c _ hcu]
            rw [ih1 (hasTripleUnder_tail _ _ (hasTripleUnder_tail _ _ h3))
              (hasUnderDot_tail _ _ (hasUnderDot_tail _ _ hud))]
      · intro h3 hud
        by_cases hcdot : c = '.'
        · subst hcdot
          exfalso
          simp [hasUnderDot] at hud
        · by_cases hcu : c = '_'
          · subst hcu
            exfalso
            simp [hasTripleUnder] at h3
          · rw [dots_to_triple_under, if_neg hcdot]
            have hstep : triple_under_to_dots ('_' :: '_' :: c :: dots_to_triple_under r) =
                '_' :: triple_under_to_dots ('_' :: c :: dots_to_triple_under r) := by
              simp [triple_under_to_dots, hcu]
            rw [hstep, tud_cons2_ne '_' c _ hcu, tud_cons_ne c _ hcu]
            rw [ih1
              (hasTripleUnder_tail _ _ (hasTripleUnder_tail _ _ (hasTripleUnder_tail _ _ h3)))
              (hasUnderDot_tail _ _ (hasUnderDot_tail _ _ (hasUnderDot_tail _ _ hud)))]

set_option maxRecDepth 40000

/-- C10 counterexample: the string made of an underscore followed by a dot
contains no triple underscore, yet converting dots to triple underscores and
back does not return it unchanged — the scan of the four underscores grabs
the first three and yields a dot followed by an underscore. -/
theorem dot_transcoding_counterexample :
    hasTripleUnder (chars "_.") = false ∧
    triple_under_to_dots (dots_to_triple_under (chars "_.")) ≠ chars "_." ∧
    triple_under_to_dots (dots_to_triple_under (chars "_.")) = chars "._" :=
  ⟨by decide, by decide, by decide⟩

/-- C10 amended: the dot transcoding round-trips on every string that
contains neither a triple underscore nor an underscore immediately followed
by a dot; on a dot-free string the round-trip degenerates to
`_triple_under_to_dots`, which rewrites each leftmost non-overlapping
literal triple underscore into a dot (e.g. a string of the letter a, a
triple underscore and the letter b becomes the letter a, a dot and the
letter b), so `Renderer.render` rewrites such literal triple underscores
into dots in its output. -/
theorem dot_transcoding_amended :
    (∀ s : Str, hasTripleUnder s = false → hasUnderDot s = false →
      triple_under_to_dots (dots_to_triple_under s) = s) ∧
    (∀ s : Str, hasDotChar s = false →
      triple_under_to_dots (dots_to_triple_under s) = triple_under_to_dots s) ∧
    triple_under_to_dots (dots_to_triple_under (chars "a___b")) = chars "a.b" := by
  refine ⟨?_, ?_, by decide⟩
  · intro s h3 hud
    exact (tud_dtu_aux s.length s le_rfl).1 h3 hud
  · intro s hd
    rw [dtu_id_of_no_dot s hd]

/-- Witness for the amended C10 theorem at a realistic dotted key. -/
theorem dot_transcoding_amended_witness :
    triple_under_to_dots (dots_to_triple_under (chars "fooservice.home")) =
      chars "fooservice.home" :=
  dot_transcoding_amended.1 (chars "fooservice.home") (by decide) (by decide)

theorem rvLoop_ok : ∀ (n : Nat) (prev final : ValMap), rvLoop prev n = .ok final →
    renderRun final = .ok final ∧ ∃ j, passIter prev j = .ok final := by
  intro n
  induction n with
  | zero => intro prev final h; simp [rvLoop] at h
  | succ n ih =>
    intro prev final h
    rw [rvLoop] at h
    cases hr : renderRun prev with
    | error e =>
      rw [hr] at h
      simp at h
    | ok this =>
      rw [hr] at h
      have h : (if this = prev then Except.ok this else rvLoop this n) =
          Except.ok final := h
      by_cases he : this = prev
      · rw [if_pos he] at h
        simp only [Except.ok.injEq] at h
        subst h
        refine ⟨by rw [he, hr, he], 1, ?_⟩
        simp [passIter, hr]
      · rw [if_neg he] at h
        obtain ⟨hfix, j, hj⟩ := ih this final h
        refine ⟨hfix, j + 1, ?_⟩
        simp only [passIter, hr]
        exact hj

/-- The self-referencing template maps used to settle C1: a key whose value
is exactly its own tag, and a key whose value is its own tag followed by a
literal letter. -/
def cycleSelf : ValMap := [(chars "a", mtag (chars "a"))]

def cycleGrow : ValMap := [(chars "a", mtag (chars "a") ++ chars "x")]

/-- C1 counterexample: for the map binding the key a to exactly its own
placeholder tag, one rendering pass reproduces the map unchanged, so
`render_values_in_template_map` returns it successfully — placeholder
intact — instead of raising the convergence error the claim requires. -/
theorem template_cycle_fixed_point_counterexample :
    render_values_in_template_map cycleSelf 10 = .ok cycleSelf ∧
    render_values_in_template_map cycleSelf 10 ≠ .error .noConvergence :=
  ⟨by decide, by decide⟩

/-- C1 amended: `render_values_in_template_map` is bounded by its pass
budget (it is a total function of at most `max_substitution_runs` passes);
a self-reference whose rendering keeps changing the value — such as a key
bound to its own tag followed by a literal letter — exhausts the budget and
fails with the convergence error, while a value that is exactly its own
placeholder is a fixed point of a full pass and is returned as-is, with the
placeholder unsubstituted; every successfully returned map is the transcoded
image of a fixed point of a full rendering pass. -/
theorem template_convergence_amended :
    render_values_in_template_map cycleGrow 10 = .error .noConvergence ∧
    render_values_in_template_map cycleSelf 10 = .ok cycleSelf ∧
    (∀ m r, render_values_in_template_map m 10 = .ok r →
      ∃ final, renderRun final = .ok final ∧ r = utdBoth final) := by
  refine ⟨by decide, by decide, ?_⟩
  intro m r h
  unfold render_values_in_template_map at h
  cases hl : rvLoop (dtuBoth m) 10 with
  | error e => rw [hl] at h; simp [Except.map] at h
  | ok final =>
    rw [hl] at h
    simp only [Except.map, Except.ok.injEq] at h
    obtain ⟨hfix, -⟩ := rvLoop_ok 10 _ _ hl
    exact ⟨final, hfix, h.symm⟩

/-- Witness for the amended C1 theorem: the pure-placeholder cycle map is
returned as the transcoded image of a render fixed point. -/
theorem template_convergence_amended_witness :
    ∃ final, renderRun final = .ok final ∧ cycleSelf = utdBoth final :=
  template_convergence_amended.2.2 cycleSelf cycleSelf (by decide)

/-- Python dict assignment on an insertion-ordered association list:
replace in place if the key exists, else append. -/
def alistSet : ValMap → Str → Str → ValMap
  | [], k, v => [(k, v)]
  | (k0, v0) :: rest, k, v =>
    if k0 = k then (k0, v) :: rest else (k0, v0) :: alistSet rest k v

/-- Apply a sequence of key/value assignments to a dict (later wins). -/
def applyAll (acc : ValMap) : List (Str × Str) → ValMap
  | [] => acc
  | (k, v) :: rest => applyAll (alistSet acc k v) rest

/-- The value of the last entry carrying a key, the effective value of a
sequence of dict assignments. -/
def lastVal : List (Str × Str) → Str → Option Str
  | [], _ => none
  | (k0, v0) :: rest, k =>
    match lastVal rest k with
    | some w => some w
    | none => if k0 = k then some v0 else none

theorem alistLookup_alistSet (l : ValMap) (k v k' : Str) :
    alistLookup (alistSet l k v) k' =
      if k = k' then some v else alistLookup l k' := by
  induction l with
  | nil => simp [alistSet, alistLookup]
  | cons kv rest ih =>
    obtain ⟨k0, v0⟩ := kv
    rw [alistSet]
    by_cases h0 : k0 = k
    · subst h0
      by_cases h1 : k0 = k'
      · subst h1
        simp [alistLookup]
      · simp [alistLookup, h1]
    · rw [if_neg h0]
      by_cases h1 : k0 = k'
      · subst h1
        have : ¬ k = k0 := fun hc => h0 hc.symm
        simp [alistLookup, this]
      · simp [alistLookup, h1, ih]

theorem lookup_applyAll : ∀ (l : List (Str × Str)) (acc : ValMap) (k : Str),
    alistLookup (applyAll acc l) k =
      match lastVal l k with
      | some w => some w
      | none => alistLookup acc k := by
  intro l
  induction l with
  | nil => intro acc k; rfl
  | cons kv rest ih =>
    intro acc k
    obtain ⟨k0, v0⟩ := kv
    rw [applyAll, ih, lastVal]
    cases hlv : lastVal rest k with
    | some w => rfl
    | none =>
      by_cases h0 : k0 = k
      · simp [alistLookup_alistSet, h0]
      · simp [alistLookup_alistSet, h0]

/-- Modelled from the spec: the pre-map of `ConfigResolver.resolve`
(`config.py` is absent from the snapshot) — Overrides applied on top of
Defaults, Override winning per key. -/
def preMap (defaults overrides : List (Str × Str)) : ValMap :=
  applyAll (applyAll [] defaults) overrides

/-- A compiled-in `config.Suggestion`: name, suggested value, rationale. -/
structure Suggestion where
  name : Str
  value : Str
  why : Str
deriving DecidableEq

/-- Modelled from the spec: `config.Config.get_active_values_and_metadata`
(`config.py` is absent from the snapshot). Build the pre-map by applying
Overrides on top of Defaults, run it through the template fixed-point
renderer to get the active map, then compute the suggestions whose value
differs from the active value of their key, and the defaults overridden
with a resolved value differing from the raw default value. The shape is
validated against `src/test/test_config.py`. -/
def getActiveValuesAndMetadata (defaults overrides : List (Str × Str))
    (suggestions : List Suggestion) :
    Except RErr (ValMap × List Suggestion × List (Str × Str)) :=
  (render_values_in_template_map (preMap defaults overrides) 10).map
    (fun active =>
      (active,
       suggestions.filter
         (fun s => decide (¬ alistLookup active s.name = some s.value)),
       defaults.filter
         (fun d => (overrides.any (fun o => decide (o.1 = d.1))) &&
           decide (¬ alistLookup active d.1 = some d.2))))

theorem renderPass_keys : ∀ (ctx l l' : ValMap), renderPass ctx l = .ok l' →
    l'.map Prod.fst = l.map Prod.fst := by
  intro ctx l
  induction l with
  | nil =>
    intro l' h
    simp only [renderPass, Except.ok.injEq] at h
    rw [← h]
  | cons kv rest ih =>
    intro l' h
    obtain ⟨k, v⟩ := kv
    rw [renderPass] at h
    cases hv : rendererRender ctx v with
    | error e => rw [hv] at h; simp at h
    | ok v' =>
      rw [hv] at h
      cases hr : renderPass ctx rest with
      | error e => rw [hr] at h; simp at h
      | ok rest' =>
        rw [hr] at h
        simp only [Except.ok.injEq] at h
        rw [← h]
        simp only [List.map_cons]
        rw [ih rest' hr]

theorem passIter_keys : ∀ (j : Nat) (m m' : ValMap), passIter m j = .ok m' →
    m'.map Prod.fst = m.map Prod.fst := by
  intro j
  induction j with
  | zero =>
    intro m m' h
    simp only [passIter, Except.ok.injEq] at h
    rw [h]
  | succ j ih =>
    intro m m' h
    rw [passIter] at h
    cases hr : renderRun m with
    | error e => rw [hr] at h; simp at h
    | ok mid =>
      rw [hr] at h
      rw [ih mid m' h]
      exact renderPass_keys m m mid hr

theorem mem_keys_of_lookup : ∀ (l : ValMap) (k v : Str),
    alistLookup l k = some v → k ∈ l.map Prod.fst := by
  intro l
  induction l with
  | nil => intro k v h; simp [alistLookup] at h
  | cons kv rest ih =>
    intro k v h
    obtain ⟨k0, v0⟩ := kv
    rw [alistLookup] at h
    by_cases h0 : k0 = k
    · simp [h0]
    · rw [if_neg h0] at h
      simp only [List.map_cons, List.mem_cons]
      exact Or.inr (ih k v h)

theorem lookup_isSome_of_mem : ∀ (l : ValMap) (k : Str),
    k ∈ l.map Prod.fst → (alistLookup l k).isSome := by
  intro l
  induction l with
  | nil => intro k h; simp at h
  | cons kv rest ih =>
    intro k h
    obtain ⟨k0, v0⟩ := kv
    rw [alistLookup]
    by_cases h0 : k0 = k
    · simp [h0]
    · rw [if_neg h0]
      simp only [List.map_cons, List.mem_cons] at h
      cases h with
      | inl heq => exact absurd heq.symm h0
      | inr hmem => exact ih k hmem

/-- C2: whenever an Override and a Default exist for the same key, the
pre-map binds the key to the Override's effective value — the Default's
value is discarded — and the active map is the fixed point of rendering
passes applied to exactly that pre-map, with the key still present; so the
active value for the key derives from the Override's value under
fixed-point template substitution, never from the Default's. The key is
assumed to round-trip the dot transcoding, as every real property key does. -/
theorem config_override_precedence :
    ∀ (defaults overrides : List (Str × Str)) (suggestions : List Suggestion)
      (k v : Str),
    lastVal overrides k = some v →
    (alistLookup (applyAll [] defaults) k).isSome →
    triple_under_to_dots (dots_to_triple_under k) = k →
    alistLookup (preMap defaults overrides) k = some v ∧
    (∀ active ds dd,
      getActiveValuesAndMetadata defaults overrides suggestions =
        .ok (active, ds, dd) →
      ((∃ j final, passIter (dtuBoth (preMap defaults overrides)) j = .ok final ∧
          renderRun final = .ok final ∧ active = utdBoth final) ∧
        (alistLookup active k).isSome)) := by
  intro defaults overrides suggestions k v hov hdef hk
  have h1 : alistLookup (preMap defaults overrides) k = some v := by
    unfold preMap
    rw [lookup_applyAll, hov]
  refine ⟨h1, ?_⟩
  intro active ds dd hga
  unfold getActiveValuesAndMetadata at hga
  cases hrv : render_values_in_template_map (preMap defaults overrides) 10 with
  | error e => rw [hrv] at hga; simp [Except.map] at hga
  | ok a0 =>
    rw [hrv] at hga
    simp only [Except.map, Except.ok.injEq, Prod.mk.injEq] at hga
    obtain ⟨ha, -⟩ := hga
    subst ha
    unfold render_values_in_template_map at hrv
    cases hl : rvLoop (dtuBoth (preMap defaults overrides)) 10 with
    | error e => rw [hl] at hrv; simp [Except.map] at hrv
    | ok final =>
      rw [hl] at hrv
      simp only [Except.map, Except.ok.injEq] at hrv
      obtain ⟨hfix, j, hj⟩ := rvLoop_ok 10 _ _ hl
      refine ⟨⟨j, final, hj, hfix, hrv.symm⟩, ?_⟩
      apply lookup_isSome_of_mem
      rw [← hrv]
      have hkeys : final.map Prod.fst =
          (dtuBoth (preMap defaults overrides)).map Prod.fst :=
        passIter_keys j _ _ hj
      have hkmem : k ∈ (preMap defaults overrides).map Prod.fst :=
        mem_keys_of_lookup _ _ _ h1
      simp only [utdBoth, List.map_map]
      have : (Prod.fst ∘ fun kv : Str × Str =>
          (triple_under_to_dots kv.1, triple_under_to_dots kv.2)) =
          (fun kv : Str × Str => triple_under_to_dots kv.1) := rfl
      rw [this]
      have hfinal : final.map (fun kv : Str × Str => triple_under_to_dots kv.1) =
          (final.map Prod.fst).map triple_under_to_dots := by
        rw [List.map_map]; rfl
      rw [hfinal, hkeys]
      simp only [dtuBoth, List.map_map]
      obtain ⟨kv, hkvmem, hfst⟩ := List.mem_map.mp hkmem
      refine List.mem_map.mpr ⟨kv, hkvmem, ?_⟩
      simp only [Function.comp_apply]
      rw [hfst]
      exact hk

/-- The configuration of `src/test/test_config.py`, `testGetActiveValuesAndMetadata`. -/
def tDefaults : List (Str × Str) :=
  [(chars "main.home", chars "/opt/myplatform"),
   (chars "fooservice.home", mtag (chars "main.home") ++ chars "/fooservice"),
   (chars "fooservice.bin", mtag (chars "fooservice.home") ++ chars "/bin"),
   (chars "barservice.max_heap_size", chars "1024"),
   (chars "barservice.foo.endpoint", chars "http://dev.example.com")]

def tOverrides : List (Str × Str) :=
  [(chars "barservice.foo.endpoint", chars "http://dev.example.com"),
   (chars "main.home", chars "/opt/apps/myplatform")]

def tSuggestion1 : Suggestion :=
  ⟨chars "barservice.max_heap_size", chars "2048",
   chars "It looks like your OS can support giving BarService more memory."⟩

def tSuggestion2 : Suggestion :=
  ⟨chars "barservice.foo.endpoint", chars "http://dev.example.com",
   chars "This suggestion not seen because it is already the active value."⟩

def tSuggestions : List Suggestion := [tSuggestion1, tSuggestion2]

def tExpectedActive : ValMap :=
  [(chars "main.home", chars "/opt/apps/myplatform"),
   (chars "fooservice.home", chars "/opt/apps/myplatform/fooservice"),
   (chars "fooservice.bin", chars "/opt/apps/myplatform/fooservice/bin"),
   (chars "barservice.max_heap_size", chars "1024"),
   (chars "barservice.foo.endpoint", chars "http://dev.example.com")]

/-- The modelled resolver reproduces exactly the expectations of
`TestConfig.testGetActiveValuesAndMetadata`: the override wins, the
multi-hop template fixed point resolves, the already-adopted suggestion is
excluded and only the overridden default is reported. -/
theorem test_config_scenario :
    getActiveValuesAndMetadata tDefaults tOverrides tSuggestions =
      .ok (tExpectedActive, [tSuggestion1],
        [(chars "main.home", chars "/opt/myplatform")]) := by decide

/-- Witness for C2 at the test configuration and the key main.home. -/
theorem config_override_precedence_witness :
    alistLookup (preMap tDefaults tOverrides) (chars "main.home") =
      some (chars "/opt/apps/myplatform") ∧
    (alistLookup tExpectedActive (chars "main.home")).isSome := by
  have h := config_override_precedence tDefaults tOverrides tSuggestions
    (chars "main.home") (chars "/opt/apps/myplatform")
    (by decide) (by decide) (by decide)
  exact ⟨h.1, (h.2 tExpectedActive [tSuggestion1]
    [(chars "main.home", chars "/opt/myplatform")] test_config_scenario).2⟩

/-- C8: a Suggestion whose value equals the active value of its key never
appears in the differing suggestions returned by config resolution. -/
theorem differing_suggestions_exclude_active :
    ∀ (defaults overrides : List (Str × Str)) (suggestions : List Suggestion)
      (active : ValMap) (ds : List Suggestion) (dd : List (Str × Str))
      (s : Suggestion),
    getActiveValuesAndMetadata defaults overrides suggestions =
      .ok (active, ds, dd) →
    alistLookup active s.name = some s.value →
    s ∉ ds := by
  intro defaults overrides suggestions active ds dd s hga hs hmem
  unfold getActiveValuesAndMetadata at hga
  cases hrv : render_values_in_template_map (preMap defaults overrides) 10 with
  | error e => rw [hrv] at hga; simp [Except.map] at hga
  | ok a0 =>
    rw [hrv] at hga
    simp only [Except.map, Except.ok.injEq, Prod.mk.injEq] at hga
    obtain ⟨ha, hds, -⟩ := hga
    subst ha
    rw [← hds] at hmem
    have hp := (List.mem_filter.mp hmem).2
    exact of_decide_eq_true hp hs

/-- Witness for C8: in the test configuration, the suggestion equal to the
active endpoint value is not among the differing suggestions. -/
theorem differing_suggestions_exclude_active_witness :
    tSuggestion2 ∉ [tSuggestion1] :=
  differing_suggestions_exclude_active tDefaults tOverrides tSuggestions
    tExpectedActive [tSuggestion1] [(chars "main.home", chars "/opt/myplatform")]
    tSuggestion2 test_config_scenario (by decide)

/-- The Python 2 exception classes relevant to `protected_file_path`:
under CPython 2, a failing `os.rmdir`/`os.mkdir` raises `OSError`, and
`IOError` is a distinct class that is not a subclass of `OSError`. -/
inductive PyExc : Type
  | osError : PyExc
  | ioError : PyExc
deriving DecidableEq

/-- Outcome of `ProtectedFilePath.__exit__`: a clean return, the module's
`Error` (the fatal lock-release error), or an exception that escapes the
handler uncaught. -/
inductive ExitOutcome : Type
  | ok : ExitOutcome
  | moduleLockError : ExitOutcome
  | uncaught : PyExc → ExitOutcome
deriving DecidableEq

/-- The behavior of `os.rmdir` in CPython 2: on failure (directory absent,
not empty, or permission denied) it raises `OSError`, never `IOError`. -/
def os_rmdir (removalFails : Bool) : Except PyExc Unit :=
  if removalFails then .error .osError else .ok ()

/-- `ProtectedFilePath.__exit__`: with `noop` nothing happens; otherwise
`os.rmdir(self.lockdir_path)` runs inside a handler whose `except` clause
names `IOError`, so only an `IOError` is converted into the module's
`Error`; any other exception (in particular `OSError`) escapes. -/
def protectedFilePathExit (noop : Bool) (rmdirResult : Except PyExc Unit) :
    ExitOutcome :=
  if noop then .ok
  else
    match rmdirResult with
    | .ok _ => .ok
    | .error .ioError => .moduleLockError
    | .error e => .uncaught e

/-- C3 divergence: when removing the lock directory fails, `os.rmdir`
raises `OSError`, the `except IOError` clause does not match, and the
`OSError` escapes `__exit__` uncaught instead of being reported as the
module's fatal lock-release `Error`; the conversion applies only to the
`IOError` case, which `os.rmdir` never produces. -/
theorem lock_release_oserror_divergence :
    protectedFilePathExit false (os_rmdir true) = .uncaught .osError ∧
    protectedFilePathExit false (os_rmdir true) ≠ .moduleLockError ∧
    protectedFilePathExit false (.error .ioError) = .moduleLockError ∧
    protectedFilePathExit false (os_rmdir false) = .ok :=
  ⟨by decide, by decide, by decide, by decide⟩

/-- `ProtectedFilePath.WAIT_INTERVALS_SEC`, in tenths of a second so the
schedule stays in the naturals: 0.1, 0.2, 0.3, 0.5, 0.7, 1.0 seconds. -/
def WAIT_INTERVALS_DS : List Nat := [1, 2, 3, 5, 7, 10]

/-- The `for interval in WAIT_INTERVALS_SEC` loop of
`ProtectedFilePath.__enter__`: on each attempt try `os.mkdir`; on success
break out; on `OSError` sleep for the interval and continue; when the
schedule is exhausted the `else` clause raises the module's `Error`.
Returns whether the lock was acquired and the list of sleeps performed
(in tenths of a second). -/
def enterLoop (mkdirSucceeds : Nat → Bool) : List Nat → Nat → Bool × List Nat
  | [], _ => (false, [])
  | i :: rest, attempt =>
    if mkdirSucceeds attempt then (true, [])
    else
      let r := enterLoop mkdirSucceeds rest (attempt + 1)
      (r.1, i :: r.2)

/-- `ProtectedFilePath.__enter__`: in `noop` mode no locking happens at
all; otherwise the mkdir/backoff loop runs over the full schedule. -/
def protectedFilePathEnter (noop : Bool) (mkdirSucceeds : Nat → Bool) :
    Bool × List Nat :=
  if noop then (true, [])
  else enterLoop mkdirSucceeds WAIT_INTERVALS_DS 0

/-- C5: when the lock directory already exists and stays in place, every
`os.mkdir` attempt fails, the loop sleeps through the full backoff schedule
0.1, 0.2, 0.3, 0.5, 0.7, 1.0 seconds and then fails (raising the module's
`Error`, the `LockTimeout` of the spec); after a release removed the lock
directory, the first `os.mkdir` succeeds, so acquisition succeeds
immediately with no sleep at all. -/
theorem lock_acquire_backoff :
    ∀ (f g : Nat → Bool),
    (∀ a, f a = false) →
    g 0 = true →
    protectedFilePathEnter false f = (false, WAIT_INTERVALS_DS) ∧
    protectedFilePathEnter false g = (true, []) := by
  intro f g hf hg
  constructor
  · simp [protectedFilePathEnter, WAIT_INTERVALS_DS, enterLoop, hf]
  · simp [protectedFilePathEnter, WAIT_INTERVALS_DS, enterLoop, hg]

/-- Witness for C5: a permanently held lock directory and a freshly
released one. -/
theorem lock_acquire_backoff_witness :
    protectedFilePathEnter false (fun _ => false) = (false, WAIT_INTERVALS_DS) ∧
    protectedFilePathEnter false (fun _ => true) = (true, []) :=
  lock_acquire_backoff (fun _ => false) (fun _ => true) (fun _ => rfl) rfl

/-- `service.wait_dots(wait_secs, proc)`: up to `wait_secs` one-second
ticks; before each sleep the process is checked, and the loop returns True
immediately when the process is observed to have exited. The process is
modelled by `running t`: whether `proc.is_running()` observed at tick `t`
is true. Returns whether the process stopped and the tick reached. -/
def wait_dots : Nat → (Nat → Bool) → Nat → Bool × Nat
  | 0, _, t => (false, t)
  | n + 1, running, t =>
    if running t then wait_dots n running (t + 1) else (true, t)

/-- The shutdown parameters of a `ServiceProfile` that `stop` consults:
whether a stop command is configured (`self.stop_cmd` non-empty after
rendering), the SIGTERM/SIGKILL switches, and the three per-stage waits. -/
structure StopConfig : Type where
  stop_cmd : Bool
  run_sigterm : Bool
  run_sigkill : Bool
  after_stop_cmd_seconds : Nat
  after_sigterm_seconds : Nat
  after_sigkill_seconds : Nat
deriving DecidableEq

/-- Observable effects of one `ServiceProfile.stop` run on a found process:
which stages executed, what each stage's poll observed, and the outcome
(`exitNonZero` is the `sys.exit(1)` branch; `removedPidFile` the
`os.remove(self.pid_file)` of the confirmed-stop branch). -/
structure StopTrace : Type where
  ranStopCmd : Bool
  stoppedAfterStopCmd : Bool
  sentSigterm : Bool
  stoppedAfterSigterm : Bool
  sentSigkill : Bool
  procStopped : Bool
  exitNonZero : Bool
  removedPidFile : Bool
  finalTime : Nat
deriving DecidableEq

/-- Stage one of `ServiceProfile.stop` on a found process: if a stop
command is configured, spawn it and poll for `after_stop_cmd_seconds`. -/
def stopStage1 (cfg : StopConfig) (running : Nat → Bool) : Bool × Nat :=
  if cfg.stop_cmd then wait_dots cfg.after_stop_cmd_seconds running 0
  else (false, 0)

/-- Stage two: if SIGTERM is enabled and the process was not yet observed
to stop, send SIGTERM and poll for `after_sigterm_seconds`. -/
def stopStage2 (cfg : StopConfig) (running : Nat → Bool) : Bool × Nat :=
  let s1 := stopStage1 cfg running
  if cfg.run_sigterm && !s1.1 then
    wait_dots cfg.after_sigterm_seconds running s1.2
  else s1

/-- Stage three: if SIGKILL is enabled and the process was not yet observed
to stop, send SIGKILL and poll for `after_sigkill_seconds`. -/
def stopStage3 (cfg : StopConfig) (running : Nat → Bool) : Bool × Nat :=
  let s2 := stopStage2 cfg running
  if cfg.run_sigkill && !s2.1 then
    wait_dots cfg.after_sigkill_seconds running s2.2
  else s2

/-- `ServiceProfile.stop` on a service whose
`_get_running_process_if_exists` found a running instance: the three
shutdown stages in program order, then either `sys.exit(1)` (process still
running) or pid-file removal (unless externally managed) on confirmed
stop. -/
def serviceStop (cfg : StopConfig) (running : Nat → Bool)
    (externallyManaged : Bool) : StopTrace :=
  let s1 := stopStage1 cfg running
  let s2 := stopStage2 cfg running
  let s3 := stopStage3 cfg running
  { ranStopCmd := cfg.stop_cmd
    stoppedAfterStopCmd := s1.1
    sentSigterm := cfg.run_sigterm && !s1.1
    stoppedAfterSigterm := s2.1
    sentSigkill := cfg.run_sigkill && !s2.1
    procStopped := s3.1
    exitNonZero := !s3.1
    removedPidFile := s3.1 && !externallyManaged
    finalTime := s3.2 }

theorem wait_dots_runs : ∀ (n : Nat) (running : Nat → Bool) (t : Nat),
    (∀ i, i < n → running (t + i) = true) →
    wait_dots n running t = (false, t + n) := by
  intro n
  induction n with
  | zero => intro running t _; simp [wait_dots]
  | succ n ih =>
    intro running t h
    have h0 : running t = true := by
      have := h 0 (Nat.succ_pos n)
      simpa using this
    rw [wait_dots, if_pos h0, ih running (t + 1)
      (fun i hi => by
        have := h (i + 1) (by omega)
        have harith : t + (i + 1) = t + 1 + i := by omega
        rw [harith] at this
        exact this)]
    have : t + 1 + n = t + (n + 1) := by omega
    rw [this]

theorem wait_dots_stops : ∀ (n : Nat) (running : Nat → Bool) (t j : Nat),
    j < n →
    (∀ i, i < j → running (t + i) = true) →
    running (t + j) = false →
    wait_dots n running t = (true, t + j) := by
  intro n
  induction n with
  | zero => intro running t j hj _ _; omega
  | succ n ih =>
    intro running t j hj hrun hstop
    cases j with
    | zero =>
      have h0 : running t = false := by simpa using hstop
      rw [wait_dots, if_neg (by rw [h0]; exact Bool.false_ne_true)]
      simp
    | succ j =>
      have h0 : running t = true := by
        have := hrun 0 (Nat.succ_pos j)
        simpa using this
      rw [wait_dots, if_pos h0, ih running (t + 1) j (by omega)
        (fun i hi => by
          have := hrun (i + 1) (by omega)
          have harith : t + (i + 1) = t + 1 + i := by omega
          rw [harith] at this
          exact this)
        (by
          have harith : t + (j + 1) = t + 1 + j := by omega
          rw [harith] at hstop
          exact hstop)]
      have : t + 1 + j = t + (j + 1) := by omega
      rw [this]

/-- C4: the stages of `stop` run in the order stop-command, SIGTERM,
SIGKILL; the stop command runs exactly when configured; each signal stage
runs exactly when it is enabled and the previous stage's poll did not
observe the process exit; `wait_dots` short-circuits at the first tick at
which the process is observed to have exited; and a service with a stop
command, SIGTERM and SIGKILL both disabled, and a process that stays
running through `after_stop_cmd_seconds` sends no signal, reports the
process still running and exits non-zero. -/
theorem service_stop_stage_order :
    ∀ (cfg : StopConfig) (running : Nat → Bool) (em : Bool),
    ((serviceStop cfg running em).ranStopCmd = cfg.stop_cmd) ∧
    ((serviceStop cfg running em).sentSigterm =
      (cfg.run_sigterm && !(serviceStop cfg running em).stoppedAfterStopCmd)) ∧
    ((serviceStop cfg running em).sentSigkill =
      (cfg.run_sigkill && !(serviceStop cfg running em).stoppedAfterSigterm)) ∧
    (∀ n t j, j < n → (∀ i, i < j → running (t + i) = true) →
      running (t + j) = false → wait_dots n running t = (true, t + j)) ∧
    (cfg.stop_cmd = true → cfg.run_sigterm = false → cfg.run_sigkill = false →
      (∀ i, i < cfg.after_stop_cmd_seconds → running i = true) →
      serviceStop cfg running em =
        { ranStopCmd := true
          stoppedAfterStopCmd := false
          sentSigterm := false
          stoppedAfterSigterm := false
          sentSigkill := false
          procStopped := false
          exitNonZero := true
          removedPidFile := false
          finalTime := cfg.after_stop_cmd_seconds }) := by
  intro cfg running em
  refine ⟨rfl, rfl, rfl, fun n t j => wait_dots_stops n running t j, ?_⟩
  intro hsc hst hsk hrun
  have h1 : stopStage1 cfg running = (false, cfg.after_stop_cmd_seconds) := by
    rw [stopStage1, if_pos hsc]
    have := wait_dots_runs cfg.after_stop_cmd_seconds running 0
      (fun i hi => by simpa using hrun i hi)
    simpa using this
  have h2 : stopStage2 cfg running = (false, cfg.after_stop_cmd_seconds) := by
    rw [stopStage2, h1, hst]
    simp
  have h3 : stopStage3 cfg running = (false, cfg.after_stop_cmd_seconds) := by
    rw [stopStage3, h2, hsk]
    simp
  rw [serviceStop, h1, h2, h3, hsc, hst, hsk]
  rfl

/-- Witness for C4: a stop command with a two-second wait, signals
disabled, and a process that never exits — no signal is sent and the run
exits non-zero. -/
theorem service_stop_stage_order_witness :
    serviceStop ⟨true, false, false, 2, 5, 5⟩ (fun _ => true) false =
      { ranStopCmd := true
        stoppedAfterStopCmd := false
        sentSigterm := false
        stoppedAfterSigterm := false
        sentSigkill := false
        procStopped := false
        exitNonZero := true
        removedPidFile := false
        finalTime := 2 } :=
  (service_stop_stage_order ⟨true, false, false, 2, 5, 5⟩ (fun _ => true)
    false).2.2.2.2 rfl rfl rfl (fun _ _ => rfl)

/-- Observable effects of one `ServiceProfile.start` run. -/
structure StartTrace : Type where
  reportedAlreadyRunning : Bool
  spawned : Bool
  wrotePidFile : Bool
  wroteStdoutLog : Bool
  preStartHooksRun : Nat
  exitNonZero : Bool
deriving DecidableEq

/-- `ServiceProfile.start`: when `_get_running_process_if_exists` (with
stale-pidfile cleanup) finds a valid matching running instance, the
function only prints "is already running" and returns; otherwise it runs
every pre-start hook, appends the header to the stdout log, spawns the
process, writes the PID file unless the service manages its own, and exits
non-zero when no live non-zombie instance is found after the start wait. -/
def serviceStart (procFound : Bool) (preStartHooks : Nat)
    (externallyManaged : Bool) (postStartOkNonZombie : Bool) : StartTrace :=
  if procFound then
    { reportedAlreadyRunning := true
      spawned := false
      wrotePidFile := false
      wroteStdoutLog := false
      preStartHooksRun := 0
      exitNonZero := false }
  else
    { reportedAlreadyRunning := false
      spawned := true
      wrotePidFile := !externallyManaged
      wroteStdoutLog := true
      preStartHooksRun := preStartHooks
      exitNonZero := !postStartOkNonZombie }

/-- C6: `start()` on a service whose PID file resolves to a valid matching
running instance reports "already running" and performs no side effects —
no spawn, no PID file write, no stdout-log write, no pre-start hook — for
every hook count, external-management flag and post-start observation. -/
theorem service_start_already_running_frame :
    ∀ (preStartHooks : Nat) (externallyManaged postStartOkNonZombie : Bool),
    serviceStart true preStartHooks externallyManaged postStartOkNonZombie =
      { reportedAlreadyRunning := true
        spawned := false
        wrotePidFile := false
        wroteStdoutLog := false
        preStartHooksRun := 0
        exitNonZero := false } :=
  fun _ _ _ => rfl

/-- The tuple of strings accepted as truthy by
`ServiceProfile.assign_template_values` for the enabled flag. -/
def enabledStrings : List Str :=
  [chars "True", chars "true", chars "1", chars "on", chars "yes"]

/-- The `self.enabled` assignment of `assign_template_values`: look up the
key `name + ".enabled"` in the resolved value map (a missing key would be a
`KeyError`, modelled as `none`) and test membership in the five-string
tuple. -/
def serviceEnabledFlag (values : ValMap) (name : Str) : Option Bool :=
  (alistLookup values (name ++ chars ".enabled")).map
    (fun v => decide (v ∈ enabledStrings))

/-- C9: after `assign_template_values`, the service is enabled exactly when
the active value of the key `name + ".enabled"` is one of the five strings
True, true, 1, on, yes; any other value leaves it disabled. -/
theorem service_enabled_iff_truthy :
    ∀ (values : ValMap) (name v : Str),
    alistLookup values (name ++ chars ".enabled") = some v →
    (serviceEnabledFlag values name = some true ↔
      (v = chars "True" ∨ v = chars "true" ∨ v = chars "1" ∨
       v = chars "on" ∨ v = chars "yes")) := by
  intro values name v h
  rw [serviceEnabledFlag, h]
  simp only [Option.map_some', Option.some.injEq, decide_eq_true_eq]
  rw [enabledStrings]
  simp [List.mem_cons]

/-- Witness for C9: a value of yes enables the service; the uppercase TRUE
and the empty string do not. -/
theorem service_enabled_iff_truthy_witness :
    serviceEnabledFlag [(chars "web.enabled", chars "yes")] (chars "web") =
      some true ∧
    ¬ serviceEnabledFlag [(chars "web.enabled", chars "TRUE")] (chars "web") =
      some true ∧
    ¬ serviceEnabledFlag [(chars "web.enabled", chars "")] (chars "web") =
      some true := by
  refine ⟨?_, ?_, ?_⟩
  · exact (service_enabled_iff_truthy [(chars "web.enabled", chars "yes")]
      (chars "web") (chars "yes") (by decide)).mpr (by decide)
  · intro hc
    have := (service_enabled_iff_truthy [(chars "web.enabled", chars "TRUE")]
      (chars "web") (chars "TRUE") (by decide)).mp hc
    revert this
    decide
  · intro hc
    have := (service_enabled_iff_truthy [(chars "web.enabled", chars "")]
      (chars "web") (chars "") (by decide)).mp hc
    revert this
    decide

/-- The slice of a `ServiceProfile` that `CLI` ordering consults after
`assign_template_values`: its name (the `OrderedDict` key), its integer
priority, and its enabled flag. -/
structure ServiceSpec : Type where
  name : Str
  priority : Int
  enabled : Bool
deriving DecidableEq

/-- Stable insertion of one element into a priority-sorted list: the new
element goes after every earlier element of smaller or equal priority, as
in Python's stable `sorted(..., key=lambda x: x.priority)`. -/
def insertStable (x : ServiceSpec) : List ServiceSpec → List ServiceSpec
  | [] => [x]
  | y :: ys =>
    if x.priority < y.priority then x :: y :: ys else y :: insertStable x ys

/-- The stable priority sort performed in `CLI.__init__` by
`sorted(service_profiles, key=lambda x: x.priority)`. -/
def pySorted (l : List ServiceSpec) : List ServiceSpec :=
  l.foldl (fun acc x => insertStable x acc) []

theorem mem_insertStable (x z : ServiceSpec) :
    ∀ l, z ∈ insertStable x l ↔ z = x ∨ z ∈ l := by
  intro l
  induction l with
  | nil => simp [insertStable]
  | cons y ys ih =>
    rw [insertStable]
    by_cases hx : x.priority < y.priority
    · rw [if_pos hx]
      simp [List.mem_cons]
    · rw [if_neg hx]
      simp only [List.mem_cons, ih]
      tauto

theorem pairwise_insertStable (x : ServiceSpec) :
    ∀ l, List.Pairwise (fun a b : ServiceSpec => a.priority ≤ b.priority) l →
    List.Pairwise (fun a b : ServiceSpec => a.priority ≤ b.priority)
      (insertStable x l) := by
  intro l
  induction l with
  | nil => intro _; simp [insertStable]
  | cons y ys ih =>
    intro h
    rw [List.pairwise_cons] at h
    rw [insertStable]
    by_cases hx : x.priority < y.priority
    · rw [if_pos hx]
      refine List.Pairwise.cons ?_ (List.Pairwise.cons h.1 h.2)
      intro z hz
      rcases List.mem_cons.mp hz with hz | hz
      · rw [hz]; exact le_of_lt hx
      · exact le_trans (le_of_lt hx) (h.1 z hz)
    · rw [if_neg hx]
      refine List.Pairwise.cons ?_ (ih h.2)
      intro z hz
      rcases (mem_insertStable x z ys).mp hz with hz | hz
      · rw [hz]; exact not_lt.mp hx
      · exact h.1 z hz

theorem filter_insertStable_ne (x : ServiceSpec) (p : Int)
    (hx : ¬ x.priority = p) :
    ∀ l, (insertStable x l).filter (fun s => decide (s.priority = p)) =
      l.filter (fun s => decide (s.priority = p)) := by
  intro l
  induction l with
  | nil => simp [insertStable, hx]
  | cons y ys ih =>
    rw [insertStable]
    by_cases hlt : x.priority < y.priority
    · rw [if_pos hlt]
      simp [List.filter_cons, hx]
    · rw [if_neg hlt]
      simp only [List.filter_cons, ih]

theorem filter_insertStable_eq (x : ServiceSpec) (p : Int)
    (hx : x.priority = p) :
    ∀ l, List.Pairwise (fun a b : ServiceSpec => a.priority ≤ b.priority) l →
    (insertStable x l).filter (fun s => decide (s.priority = p)) =
      l.filter (fun s => decide (s.priority = p)) ++ [x] := by
  intro l
  induction l with
  | nil => intro _; simp [insertStable, hx]
  | cons y ys ih =>
    intro h
    rw [List.pairwise_cons] at h
    rw [insertStable]
    by_cases hlt : x.priority < y.priority
    · rw [if_pos hlt]
      have hnil : (y :: ys).filter (fun s => decide (s.priority = p)) = [] := by
        rw [List.filter_eq_nil_iff]
        intro a ha
        rcases List.mem_cons.mp ha with ha | ha
        · rw [ha]
          simp only [decide_eq_true_eq]
          omega
        · have := h.1 a ha
          simp only [decide_eq_true_eq]
          omega
      rw [List.filter_cons, hnil]
      simp [hx]
    · rw [if_neg hlt]
      rw [List.filter_cons, List.filter_cons, ih h.2]
      by_cases hy : y.priority = p
      · simp [hy]
      · simp [hy]

theorem pySorted_invariant :
    ∀ (l acc : List ServiceSpec),
    List.Pairwise (fun a b : ServiceSpec => a.priority ≤ b.priority) acc →
    (List.Pairwise (fun a b : ServiceSpec => a.priority ≤ b.priority)
       (l.foldl (fun a x => insertStable x a) acc) ∧
     (∀ p : Int, (l.foldl (fun a x => insertStable x a) acc).filter
         (fun s => decide (s.priority = p)) =
       acc.filter (fun s => decide (s.priority = p)) ++
         l.filter (fun s => decide (s.priority = p)))) := by
  intro l
  induction l with
  | nil =>
    intro acc h
    exact ⟨h, fun p => by simp⟩
  | cons x rest ih =>
    intro acc h
    have hacc' := pairwise_insertStable x acc h
    obtain ⟨hpw, hfil⟩ := ih (insertStable x acc) hacc'
    refine ⟨hpw, ?_⟩
    intro p
    simp only [List.foldl_cons]
    rw [hfil p]
    by_cases hx : x.priority = p
    · rw [filter_insertStable_eq x p hx acc h]
      rw [List.filter_cons]
      simp [hx, List.append_assoc]
    · rw [filter_insertStable_ne x p hx acc]
      rw [List.filter_cons]
      simp [hx]

/-- `CLI.__init__`: `services_by_name` is the `OrderedDict` built from the
profiles sorted ascending by priority; when the profile names are pairwise
distinct (the hypothesis of the ordering theorem) the dict keeps exactly
this sequence. -/
def cliServiceOrder (profiles : List ServiceSpec) : List ServiceSpec :=
  pySorted profiles

/-- `CLI.start` with no service argument: iterate `services_by_name` in
order and start each enabled service. -/
def cliStartOrder (profiles : List ServiceSpec) : List ServiceSpec :=
  (cliServiceOrder profiles).filter (fun s => s.enabled)

/-- `CLI.stop` with no service argument: iterate the reversed
`services_by_name` values and stop each service. -/
def cliStopOrder (profiles : List ServiceSpec) : List ServiceSpec :=
  (cliServiceOrder profiles).reverse

/-- C7: for profiles with pairwise-distinct names (so the `OrderedDict`
keeps the sorted sequence), the supervisor's service order is ascending by
priority; ties keep declaration order (for every priority, the subsequence
at that priority equals the declaration-order subsequence); `start`
processes exactly the enabled services in that order; `stop` processes the
services in exactly the reverse of that order (so it is descending by
priority, and on the enabled services it is exactly the reverse of the
start sequence). -/
theorem supervisor_priority_order :
    ∀ (profiles : List ServiceSpec),
    List.Pairwise (fun a b : ServiceSpec => ¬ a.name = b.name) profiles →
    (List.Pairwise (fun a b : ServiceSpec => a.priority ≤ b.priority)
       (cliServiceOrder profiles) ∧
     (∀ p : Int, (cliServiceOrder profiles).filter
         (fun s => decide (s.priority = p)) =
       profiles.filter (fun s => decide (s.priority = p))) ∧
     cliStartOrder profiles =
       (cliServiceOrder profiles).filter (fun s => s.enabled) ∧
     cliStopOrder profiles = (cliServiceOrder profiles).reverse ∧
     List.Pairwise (fun a b : ServiceSpec => b.priority ≤ a.priority)
       (cliStopOrder profiles) ∧
     (cliStopOrder profiles).filter (fun s => s.enabled) =
       (cliStartOrder profiles).reverse) := by
  intro profiles _
  obtain ⟨hpw, hfil⟩ := pySorted_invariant profiles [] (List.Pairwise.nil)
  refine ⟨hpw, ?_, rfl, rfl, ?_, ?_⟩
  · intro p
    have := hfil p
    simpa using this
  · rw [cliStopOrder, List.pairwise_reverse]
    exact hpw
  · rw [cliStopOrder, cliStartOrder, List.filter_reverse]

/-- Witness for C7 at three concrete profiles with a priority tie. -/
theorem supervisor_priority_order_witness :
    List.Pairwise (fun a b : ServiceSpec => a.priority ≤ b.priority)
      (cliServiceOrder
        [⟨chars "db", 2, true⟩, ⟨chars "web", 1, true⟩,
         ⟨chars "cache", 1, false⟩]) ∧
    (cliStopOrder
        [⟨chars "db", 2, true⟩, ⟨chars "web", 1, true⟩,
         ⟨chars "cache", 1, false⟩]).filter (fun s => s.enabled) =
      (cliStartOrder
        [⟨chars "db", 2, true⟩, ⟨chars "web", 1, true⟩,
         ⟨chars "cache", 1, false⟩]).reverse := by
  have h := supervisor_priority_order
    [⟨chars "db", 2, true⟩, ⟨chars "web", 1, true⟩, ⟨chars "cache", 1, false⟩]
    (by decide)
  exact ⟨h.1, h.2.2.2.2.2⟩
